import Mathlib

/-!
Verification development for the asset-cache core of the `mak` repository
(`transplacer.go`). The Go source is shallowly embedded: bytes are `Nat`s
below 256, machine words are `Nat` with explicit `% 2^32`, timestamps are
`Nat`, the concurrent hash map is modelled by an association list, the
filesystem by a finite association list from exact path strings to nodes,
and external collaborators (MIME lookup, gzip) are parameters.
-/

set_option autoImplicit false

namespace Mak

/-! ### Bytes, hex, SHA-256 (crypto/sha256, `fmt.Sprintf("%x", ...)`) -/

/-- 2^32, the modulus for 32-bit words. -/
def M32 : Nat := 4294967296

/-- Rotate a 32-bit word (a `Nat` below `M32`) right by `n` bits. -/
def rotr32 (n x : Nat) : Nat := x / 2 ^ n + x % 2 ^ n * 2 ^ (32 - n)

/-- Bitwise complement within 32 bits. -/
def not32 (x : Nat) : Nat := x ^^^ 4294967295

def smallSigma0 (x : Nat) : Nat := rotr32 7 x ^^^ rotr32 18 x ^^^ x / 2 ^ 3

def smallSigma1 (x : Nat) : Nat := rotr32 17 x ^^^ rotr32 19 x ^^^ x / 2 ^ 10

def bigSigma0 (x : Nat) : Nat := rotr32 2 x ^^^ rotr32 13 x ^^^ rotr32 22 x

def bigSigma1 (x : Nat) : Nat := rotr32 6 x ^^^ rotr32 11 x ^^^ rotr32 25 x

/-- The SHA-256 round constants, in decimal. -/
def Ksha : List Nat :=
  [1116352408, 1899447441, 3049323471, 3921009573, 961987163,
   1508970993, 2453635748, 2870763221, 3624381080, 310598401,
   607225278, 1426881987, 1925078388, 2162078206, 2614888103,
   3248222580, 3835390401, 4022224774, 264347078, 604807628,
   770255983, 1249150122, 1555081692, 1996064986, 2554220882,
   2821834349, 2952996808, 3210313671, 3336571891, 3584528711,
   113926993, 338241895, 666307205, 773529912, 1294757372,
   1396182291, 1695183700, 1986661051, 2177026350, 2456956037,
   2730485921, 2820302411, 3259730800, 3345764771, 3516065817,
   3600352804, 4094571909, 275423344, 430227734, 506948616,
   659060556, 883997877, 958139571, 1322822218, 1537002063,
   1747873779, 1955562222, 2024104815, 2227730452, 2361852424,
   2428436474, 2756734187, 3204031479, 3329325298]

/-- The SHA-256 initial hash value, in decimal. -/
def Hinit : List Nat :=
  [1779033703, 3144134277, 1013904242, 2773480762,
   1359893119, 2600822924, 528734635, 1541459225]

/-- Big-endian byte rendering of `x` in `n` bytes. -/
def beBytes (n x : Nat) : List Nat :=
  (List.range n).map (fun i => x / 2 ^ (8 * (n - 1 - i)) % 256)

/-- SHA-256 padding: append `0x80`, zeros to 56 mod 64, then the bit length. -/
def sha256pad (msg : List Nat) : List Nat :=
  msg ++ [128] ++ List.replicate ((119 - msg.length % 64) % 64) 0 ++ beBytes 8 (8 * msg.length)

/-- Pack bytes into big-endian 32-bit words. -/
def bytesToWords : List Nat → List Nat
  | a :: b :: c :: d :: rest => (((a * 256 + b) * 256 + c) * 256 + d) :: bytesToWords rest
  | _ => []

def chunksAux : Nat → List Nat → List (List Nat)
  | 0, _ => []
  | _, [] => []
  | n + 1, bs => bs.take 64 :: chunksAux n (bs.drop 64)

/-- Split a byte list into 64-byte blocks. -/
def chunks (bs : List Nat) : List (List Nat) := chunksAux bs.length bs

/-- Extend the message schedule; `wrev` is the schedule so far, newest first. -/
def extendW : Nat → List Nat → List Nat
  | 0, wrev => wrev
  | k + 1, wrev =>
    extendW k
      ((smallSigma1 (wrev.getD 1 0) + wrev.getD 6 0 +
          smallSigma0 (wrev.getD 14 0) + wrev.getD 15 0) % M32 :: wrev)

/-- One SHA-256 round on the state `[a,b,c,d,e,f,g,h]`. -/
def sha256round (st : List Nat) (k : Nat) (w : Nat) : List Nat :=
  match st with
  | [a, b, c, d, e, f, g, h] =>
    let t1 := (h + bigSigma1 e + ((e &&& f) ^^^ (not32 e &&& g)) + k + w) % M32
    let t2 := (bigSigma0 a + ((a &&& b) ^^^ (a &&& c) ^^^ (b &&& c))) % M32
    [(t1 + t2) % M32, a, b, c, (d + t1) % M32, e, f, g]
  | st => st

/-- Process one 16-word block against the running hash `h`. -/
def processBlock (h : List Nat) (block : List Nat) : List Nat :=
  let w := (extendW 48 block.reverse).reverse
  let st := (List.zip Ksha w).foldl (fun st kw => sha256round st kw.1 kw.2) h
  (List.zip h st).map (fun p => (p.1 + p.2) % M32)

/-- SHA-256 digest of a byte list, as eight 32-bit words. -/
def sha256Words (msg : List Nat) : List Nat :=
  (chunks (sha256pad msg)).foldl (fun h blk => processBlock h (bytesToWords blk)) Hinit

/-- SHA-256 digest of a byte list, as 32 bytes. -/
def sha256Bytes (msg : List Nat) : List Nat :=
  (sha256Words msg).map (beBytes 4) |>.flatten

/-- A lowercase hex digit. -/
def hexDigit (n : Nat) : Char := if n < 10 then Char.ofNat (48 + n) else Char.ofNat (87 + n)

/-- Lowercase hex rendering of one byte (Go `%x` style). -/
def hexByte (b : Nat) : String := String.mk [hexDigit (b / 16), hexDigit (b % 16)]

/-- Lowercase hex rendering of a byte list (Go `fmt.Sprintf("%x", bytes)`). -/
def hexOfBytes (bs : List Nat) : String := String.join (bs.map hexByte)

/-- The quoted-hex SHA-256 validator built at transplacer.go:157 and :171:
`fmt.Sprintf("%x", sha256-digest)` wrapped in double quotes. -/
def quotedHexDigest (bs : List Nat) : String := "\"" ++ hexOfBytes (sha256Bytes bs) ++ "\""

/-! ### Path handling (Go `path.Clean`, `path/filepath.Ext`) and string helpers -/

/-- One step of Go `path.Clean`: push element `e` onto the processed stack
(held in reverse, most recent element first). Empty and `.` elements vanish;
`..` pops when possible, is kept when the path is relative and nothing can be
popped, and is dropped at the root of a rooted path. -/
def cleanPush (rooted : Bool) (stack : List String) (e : String) : List String :=
  if e == "" || e == "." then stack
  else if e == ".." then
    match stack with
    | [] => if rooted then [] else [".."]
    | t :: rest => if t == ".." then ".." :: t :: rest else rest
  else e :: stack

/-- Split a character list at every slash (Go `strings.Split` on "/"). -/
def splitSlashAux : List Char → List Char → List String
  | [], acc => [String.mk acc.reverse]
  | c :: rest, acc =>
    if c == '/' then String.mk acc.reverse :: splitSlashAux rest []
    else splitSlashAux rest (c :: acc)

/-- The slash-separated elements of a path. -/
def splitSlash (p : String) : List String := splitSlashAux p.toList []

/-- Join path elements with slashes. -/
def joinSlash : List String → String
  | [] => ""
  | [x] => x
  | x :: xs => x ++ "/" ++ joinSlash xs

/-- Go `path.Clean`: lexical normalization of a slash-separated path. -/
def pathClean (p : String) : String :=
  if p == "" then "."
  else
    let rooted := p.toList.headD ' ' == '/'
    let elems := ((splitSlash p).foldl (cleanPush rooted) []).reverse
    if elems.isEmpty then (if rooted then "/" else ".")
    else (if rooted then "/" else "") ++ joinSlash elems

/-- Helper for `filepathExt`: walk the characters of the path from the end
(`rev` is the reversed path), accumulating the suffix seen so far. -/
def extAux : List Char → List Char → String
  | [], _ => ""
  | c :: rest, acc =>
    if c == '/' then ""
    else if c == '.' then String.mk ('.' :: acc)
    else extAux rest (c :: acc)

/-- Go `path/filepath.Ext`: the suffix beginning at the final dot in the final
path element; empty when that element has no dot. -/
def filepathExt (p : String) : String := extAux p.toList.reverse []

/-- Is `needle` a contiguous sublist of `hay`? -/
def subList (needle hay : List Char) : Bool :=
  match hay with
  | [] => needle.isEmpty
  | _ :: tl => needle.isPrefixOf hay || subList needle tl

/-- Go `strings.Contains s sub`. -/
def strContains (s sub : String) : Bool := subList sub.toList s.toList

/-- ASCII lowercasing of a character code. -/
def lowerCode (n : Nat) : Nat := if 65 ≤ n && n ≤ 90 then n + 32 else n

/-- The character codes of a string, ASCII-lowercased. -/
def lowerCodes (s : String) : List Nat := s.toList.map (fun c => lowerCode c.toNat)

/-- Modelled from the spec: `stringsContainsCI` is defined elsewhere in the
repository (not under src/); the spec describes it as case-insensitive
membership of a string in a list ("extension (case-insensitive, including the
empty extension) is looked up in a fixed allow-list"). -/
def stringsContainsCI (list : List String) (s : String) : Bool :=
  list.any (fun x => lowerCodes x == lowerCodes s)

/-- The compressable-extension allow-list, transplacer.go:23. -/
def Compressable : List String :=
  ["", ".txt", ".htm", ".html", ".css", ".toml", ".php", ".js", ".json", ".md",
   ".mdown", ".xml", ".svg", ".go", ".cgi", ".py", ".pl", ".aspx", ".asp"]

/-! ### Data model: Asset, AssetCache, filesystem, collaborators -/

/-- The `Asset` struct, transplacer.go:200-214. Byte slices that Go leaves
`nil` and strings it leaves `""` when a compressed variant is absent are
modelled by `Option` (`none` = absent). Timestamps are `Nat`s. -/
structure Asset where
  ContentType : String := ""
  Loaded : Nat := 0
  ModTime : Nat := 0
  Content : List Nat := []
  ContentCompressed : Option (List Nat) := none
  Etag : String := ""
  EtagCompressed : Option String := none
  Compressed : Bool := false
deriving DecidableEq, Inhabited

/-- A node of the modelled filesystem: a regular file (content bytes, mtime,
and a fault flag making reads fail, for exercising the I/O-error paths) or a
directory. -/
inductive FsNode
  | file (content : List Nat) (mtime : Nat) (readErr : Bool)
  | dir
deriving DecidableEq

/-- The filesystem: a finite map from exact path strings to nodes. -/
def FS := List (String × FsNode)

/-- `os.Stat` on the modelled filesystem: `none` is a stat error (NotFound). -/
def fsStat (fs : FS) (p : String) : Option FsNode :=
  ((fs.find? (fun kv => kv.1 == p)).map (fun kv => kv.2))

/-- Cache lookup (`a.Cache.GetStringKey`, via cornelk/hashmap). -/
def cacheGet (c : List (String × Asset)) (k : String) : Option Asset :=
  ((c.find? (fun kv => kv.1 == k)).map (fun kv => kv.2))

/-- Cache insert (`a.Cache.Set`). -/
def cacheSet (c : List (String × Asset)) (k : String) (v : Asset) : List (String × Asset) :=
  (k, v) :: c.filter (fun kv => kv.1 != k)

/-- Cache delete (`a.Cache.Del`). -/
def cacheDel (c : List (String × Asset)) (k : String) : List (String × Asset) :=
  c.filter (fun kv => kv.1 != k)

/-- The `AssetCache` struct, transplacer.go:30-40. The ticker is modelled by
its interval plus an active flag. -/
structure AssetCache where
  Dir : String
  Cache : List (String × Asset) := []
  Expire : Nat := 0
  Interval : Nat := 1
  CacheControl : String := "private, must-revalidate"
  TickerActive : Bool := true
deriving DecidableEq

/-- Generation errors (spec taxonomy §7. `fuelExhausted` is a modelling
artifact bounding the index-file recursion, which Go leaves unbounded). -/
inductive GenErr
  | notFound
  | readError
  | compressionError
  | fuelExhausted
deriving DecidableEq

/-! ### Gen (transplacer.go:106-179)

External collaborators are parameters: `mime` is Go's
`mime.TypeByExtension` (stdlib, declared an external collaborator by the
spec), `gz` is `gzipBytes` whose compressor is Go's `compress/gzip`
(stdlib); `gz content level` returns `none` on a compression failure.
`now` is the clock reading taken at transplacer.go:174. `fuel` bounds the
directory/index recursion of line 115, which the Go source leaves
unbounded; it is a modelling artifact and every claim supplies enough. -/

def GenGo (fs : FS) (mime : String → String) (gz : List Nat → Nat → Option (List Nat))
    (now : Nat) :
    Nat → AssetCache → String → Except GenErr Asset × AssetCache
  | 0, a, _ => (Except.error GenErr.fuelExhausted, a)
  | fuel + 1, a, name0 =>
    -- line 107: name = path.Clean(a.Dir + name)
    let name := pathClean (a.Dir ++ name0)
    -- lines 109-112: os.Stat
    match fsStat fs name with
    | none => (Except.error GenErr.notFound, a)
    -- lines 114-116: directory: recurse on name + "/index.html"
    | some FsNode.dir => GenGo fs mime gz now fuel a (name ++ "/index.html")
    | some (FsNode.file content mtime readErr) =>
      -- lines 118-127: os.Open / ioutil.ReadFile
      if readErr then (Except.error GenErr.readError, a)
      else
        -- lines 129-133
        let ext := filepathExt name
        let contentType := mime ext
        let compressed := stringsContainsCI Compressable ext
        if compressed then
          -- lines 142-160: gzip, digest of the compressed bytes
          match gz content 9 with
          | none => (Except.error GenErr.compressionError, a)
          | some comp =>
            let asset : Asset :=
              { ContentType := contentType, Loaded := now, ModTime := mtime,
                Content := content, ContentCompressed := some comp,
                Etag := quotedHexDigest content,
                EtagCompressed := some (quotedHexDigest comp), Compressed := true }
            -- lines 162-176: digest of the raw bytes, stamp Loaded, Cache.Set
            (Except.ok asset, { a with Cache := cacheSet a.Cache name asset })
        else
          let asset : Asset :=
            { ContentType := contentType, Loaded := now, ModTime := mtime,
              Content := content, ContentCompressed := none,
              Etag := quotedHexDigest content,
              EtagCompressed := none, Compressed := false }
          (Except.ok asset, { a with Cache := cacheSet a.Cache name asset })

instance : DecidableEq (Except GenErr Asset) := fun x y =>
  match x, y with
  | Except.ok a, Except.ok b =>
    if h : a = b then Decidable.isTrue (by rw [h]) else Decidable.isFalse (by simp [h])
  | Except.error a, Except.error b =>
    if h : a = b then Decidable.isTrue (by rw [h]) else Decidable.isFalse (by simp [h])
  | Except.ok _, Except.error _ => Decidable.isFalse (by simp)
  | Except.error _, Except.ok _ => Decidable.isFalse (by simp)

/-- Is a generation result a success? -/
def isOkE (r : Except GenErr Asset) : Bool :=
  match r with
  | Except.ok _ => true
  | Except.error _ => false

/-! ### Get (transplacer.go:182-191) -/

/-- What `Get` produces: the returned `(asset-or-nil, bool)` pair, or a
runtime panic (the miss branch of line 190 type-asserts the `nil` value the
map returned for an absent key). -/
inductive GetRes
  | ret (asset : Option Asset) (ok : Bool)
  | panicked
deriving DecidableEq

def GetGo (fs : FS) (mime : String → String) (gz : List Nat → Nat → Option (List Nat))
    (now : Nat) (fuel : Nat) (a : AssetCache) (name0 : String) : GetRes × AssetCache :=
  -- line 183: name = path.Clean(a.Dir + name)
  let name := pathClean (a.Dir ++ name0)
  -- line 185: raw, ok := a.Cache.GetStringKey(name)
  match cacheGet a.Cache name with
  | some _ =>
    -- lines 186-189: on a hit, regenerate and return the fresh asset
    match GenGo fs mime gz now fuel a name with
    | (Except.ok asset, a1) => (GetRes.ret (some asset) true, a1)
    | (Except.error _, a1) => (GetRes.ret none false, a1)
  -- line 190: on a miss, raw.(*Asset) panics on the nil interface value
  | none => (GetRes.panicked, a)

/-! ### The sweeper tick (transplacer.go:57-66) and Close (:97-103) -/

/-- One tick of the eviction goroutine at `now`: iterate the entries and
`Del` every entry for which `asset.Loaded.Add(a.Expire).After(now)`, i.e.
whose `Loaded + Expire` is strictly greater than `now`. -/
def sweepTick (a : AssetCache) (now : Nat) : AssetCache :=
  { a with Cache := a.Cache.filter (fun kv => !(now < kv.2.Loaded + a.Expire)) }

/-- `Close`: replace the cache with a fresh empty map and stop the ticker.
It takes no filesystem argument: it cannot touch files. -/
def CloseGo (a : AssetCache) : AssetCache :=
  { a with Cache := [], TickerActive := false }

/-! ### Serve (transplacer.go:217-237)

The request/response context `Ctx` lives elsewhere in the repository (not
under src/), so it is modelled from the spec: a response sink holding
headers, a body, and content-length accounting, plus the one request input
consulted, the accept-encoding capability string. -/

/-- Modelled from the spec: the response sink of §4.4 plus the request's
accept-encoding capability indicator (§6); `body` is the bytes written so
far. -/
structure Ctx where
  acceptEncoding : String := ""
  respHeaders : List (String × String) := []
  body : List Nat := []
  ContentLength : Nat := 0
deriving DecidableEq

/-- Modelled from the spec: read a response header already set (empty string
when absent), as `c.GetHeader` does for the last-modified check. -/
def ctxGetHeader (c : Ctx) (k : String) : String :=
  (((c.respHeaders.find? (fun kv => kv.1 == k)).map (fun kv => kv.2))).getD ""

/-- Modelled from the spec: set (replace) a response header. -/
def ctxSetHeader (c : Ctx) (k v : String) : Ctx :=
  { c with respHeaders := (k, v) :: c.respHeaders.filter (fun kv => kv.1 != k) }

/-- Modelled from the spec: write bytes to the response body; the byte count
is folded into the content-length accounting (transplacer.go:233-235). -/
def ctxWrite (c : Ctx) (bs : List Nat) : Ctx :=
  { c with body := c.body ++ bs, ContentLength := c.ContentLength + bs.length }

/-- Modelled from the spec: the HTTP-date rendering of a modification
timestamp (Go `http.TimeFormat`, outside this repository), represented by an
injective rendering of the timestamp. -/
def httpTimeFormat (t : Nat) : String := "http-date " ++ toString t

def ServeGo (as : Asset) (c : Ctx) : Ctx :=
  -- line 218: c.SetContentType
  let c1 := ctxSetHeader c "content-type" as.ContentType
  -- lines 219-221: last-modified only if not already set
  let c2 :=
    if ctxGetHeader c1 "last-modified" == "" then
      ctxSetHeader c1 "last-modified" (httpTimeFormat as.ModTime)
    else c1
  -- lines 225-231: representation choice; Go's nil slice / "" zero values
  -- for the absent compressed variant appear as the getD defaults
  if as.Compressed && strContains c2.acceptEncoding "gzip" then
    ctxWrite (ctxSetHeader c2 "etag" (as.EtagCompressed.getD ""))
      (as.ContentCompressed.getD [])
  else
    ctxWrite (ctxSetHeader c2 "etag" as.Etag) as.Content

/-! ### Concrete fixtures used by the claim theorems -/

/-- A MIME collaborator that knows no types. -/
def mimeNil : String → String := fun _ => ""

/-- A concrete stand-in compressor that always succeeds. -/
def gzId : List Nat → Nat → Option (List Nat) := fun c _ => some (31 :: c)

/-- A filesystem with one regular file under the root `/r`. -/
def fsGen : FS := [("/r/x.txt", FsNode.file [104, 105] 3 false)]

/-- A cache rooted at `/r` with no entries. -/
def acEmpty : AssetCache := { Dir := "/r", Expire := 10 }

/-- A stale entry supposedly cached for `/r/x.txt`. -/
def assetStale : Asset := { ContentType := "text/plain", Loaded := 1, Content := [1, 2, 3], Etag := "\"stale\"" }

/-- A cache rooted at `/r` holding `assetStale` under the normalized key. -/
def acHitC1 : AssetCache := { Dir := "/r", Cache := [("/r/x.txt", assetStale)], Expire := 10 }

/-- Is `p` equal to the root or lexically under `root + "/"`? -/
def isUnder (root p : String) : Bool :=
  p == root || (root ++ "/").toList.isPrefixOf p.toList

/-- An entry loaded at time 0 for the sweep fixture. -/
def assetT0 : Asset := { Loaded := 0 }

/-- A cache with TTL 10 holding one entry loaded at time 0. -/
def acSweep : AssetCache := { Dir := "/r", Cache := [("/r/x", assetT0)], Expire := 10 }

/-- A directory with an index file, rooted at `/r`. -/
def fsC4 : FS := [("/r/d", FsNode.dir), ("/r/d/index.html", FsNode.file [120] 0 false)]

/-- A cache rooted at the filesystem root `/`. -/
def acRoot : AssetCache := { Dir := "/", Expire := 10 }

/-- A directory whose index file is itself a directory holding an index file. -/
def fsC4b : FS :=
  [("/q", FsNode.dir), ("/q/index.html", FsNode.dir),
   ("/q/index.html/index.html", FsNode.file [121] 0 false)]

/-- A cache rooted at `/r` holding an entry, about to be closed. -/
def acC9 : AssetCache := { Dir := "/r", Cache := [("/r/x.txt", assetStale)], Expire := 10 }

/-- A filesystem containing a file outside the root `/r`. -/
def fsC10 : FS := [("/r", FsNode.dir), ("/etc/passwd", FsNode.file [114, 116] 0 false)]

/-- The bytes of `"hello"`. -/
def helloBytes : List Nat := [104, 101, 108, 108, 111]

/-- A filesystem with `index.html` containing `"hello"` under the root `/`. -/
def fsC7 : FS := [("/index.html", FsNode.file helloBytes 7 false)]

/-! ### Claim theorems -/

/-- Claim C1: the claim says `Get` returns a live cached entry directly
without touching the filesystem, and otherwise invokes `Gen` and returns its
result. The code does neither: on a miss it panics on the nil type
assertion of transplacer.go:190 even though the file exists and `Gen` would
succeed, and on a hit it does not return the live entry but regenerates
(here returning nil/false instead of the cached entry). -/
theorem c1_get_contract_violated :
    GetGo fsGen mimeNil gzId 5 9 acEmpty "/x.txt" = (GetRes.panicked, acEmpty) ∧
    isOkE (GenGo fsGen mimeNil gzId 5 9 acEmpty "/x.txt").1 = true ∧
    acEmpty.Cache = [] ∧
    cacheGet acHitC1.Cache (pathClean (acHitC1.Dir ++ "/x.txt")) = some assetStale ∧
    (GetGo fsGen mimeNil gzId 5 9 acHitC1 "/x.txt").1 = GetRes.ret none false := by decide

/-- Claim C2: the claim says a sweep tick evicts exactly the entries whose
age is at least the TTL. The code's comparison (transplacer.go:61) is
inverted: with an entry loaded at 0 and TTL 10, a tick at time 3 evicts it
(age 3 < 10, claim says present) while ticks at times 10 and 15 retain it
(age ≥ 10, claim says absent). -/
theorem c2_sweep_comparison_inverted :
    (sweepTick acSweep 3).Cache = [] ∧
    (sweepTick acSweep 10).Cache = [("/r/x", assetT0)] ∧
    (sweepTick acSweep 15).Cache = [("/r/x", assetT0)] := by decide

/-- Claim C4: the claim says `generate(d)` for a directory yields the same
entry as `generate(d + "/index.html")`, with only one level of index
fallback. In the code the recursive call (transplacer.go:115) passes the
already root-prefixed cleaned path back to `Gen`, which prefixes the root
again (line 107): with root `/r`, `Gen "/d"` stats `/r/r/d/index.html` and
fails with NotFound while `Gen "/d/index.html"` succeeds. Moreover the
fallback is not limited to one level: with root `/`, a directory whose
index file is itself a directory resolves two levels down instead of being
treated as not found. -/
theorem c4_dir_index_fallback_broken :
    (GenGo fsC4 mimeNil gzId 5 9 acEmpty "/d").1 = Except.error GenErr.notFound ∧
    isOkE (GenGo fsC4 mimeNil gzId 5 9 acEmpty "/d/index.html").1 = true ∧
    isOkE (GenGo fsC4b mimeNil gzId 5 9 acRoot "/q").1 = true := by decide

/-- Claim C9: `close()` does stop the schedule and replace the store with an
empty one, but a subsequent lookup for a previously cached key does not
trigger a fresh `generate`: it takes the miss branch of `Get`
(transplacer.go:190) and panics on the nil type assertion, even though the
file exists and `Gen` on its own would succeed. -/
theorem c9_close_then_get_panics :
    (CloseGo acC9).Cache = [] ∧
    (CloseGo acC9).TickerActive = false ∧
    cacheGet acC9.Cache (pathClean (acC9.Dir ++ "/x.txt")) = some assetStale ∧
    GetGo fsGen mimeNil gzId 7 9 (CloseGo acC9) "/x.txt" = (GetRes.panicked, CloseGo acC9) ∧
    isOkE (GenGo fsGen mimeNil gzId 7 9 (CloseGo acC9) "/x.txt").1 = true := by decide

/-- Claim C10: a request path containing `..` segments escapes the root:
with root `/r`, the key computed for the request path `/../etc/passwd` is
`path.Clean("/r" + "/../etc/passwd") = "/etc/passwd"`, which is not under
`/r`, and generation reads that file and caches it under the escaped key. -/
theorem c10_dotdot_escapes_root :
    pathClean ("/r" ++ "/../etc/passwd") = "/etc/passwd" ∧
    isUnder "/r" "/etc/passwd" = false ∧
    isOkE (GenGo fsC10 mimeNil gzId 5 9 acEmpty "/../etc/passwd").1 = true ∧
    (cacheGet (GenGo fsC10 mimeNil gzId 5 9 acEmpty "/../etc/passwd").2.Cache
      "/etc/passwd").isSome = true := by decide

/-- Claim C3: the literal `Get` normalizes the key; when the key IS present
in the cache it invokes a fresh `Gen` on the normalized key and returns
`Gen`'s result (the regenerated entry and `err == nil`); when the key is NOT
present it takes the branch that type-asserts the absent (nil) value, i.e.
it panics rather than returning absent. -/
theorem c3_get_literal_semantics (fs : FS) (mime : String → String)
    (gz : List Nat → Nat → Option (List Nat)) (now fuel : Nat) (a : AssetCache)
    (name0 : String) :
    (∀ e, cacheGet a.Cache (pathClean (a.Dir ++ name0)) = some e →
      GetGo fs mime gz now fuel a name0 =
        (match GenGo fs mime gz now fuel a (pathClean (a.Dir ++ name0)) with
         | (Except.ok asset, a1) => (GetRes.ret (some asset) true, a1)
         | (Except.error _, a1) => (GetRes.ret none false, a1)))
  ∧ (cacheGet a.Cache (pathClean (a.Dir ++ name0)) = none →
      GetGo fs mime gz now fuel a name0 = (GetRes.panicked, a)) := by
  constructor
  · intro e he
    simp only [GetGo, he]
  · intro he
    simp only [GetGo, he]

/-- Witness for C3 at a concrete hit: the key is live in the cache and `Get`
returns exactly what a fresh `Gen` produces. -/
theorem c3_get_literal_semantics_witness :
    cacheGet acHitC1.Cache (pathClean (acHitC1.Dir ++ "/x.txt")) = some assetStale ∧
    GetGo fsGen mimeNil gzId 5 9 acHitC1 "/x.txt" =
      (match GenGo fsGen mimeNil gzId 5 9 acHitC1 (pathClean (acHitC1.Dir ++ "/x.txt")) with
       | (Except.ok asset, a1) => (GetRes.ret (some asset) true, a1)
       | (Except.error _, a1) => (GetRes.ret none false, a1)) :=
  ⟨by decide,
   (c3_get_literal_semantics fsGen mimeNil gzId 5 9 acHitC1 "/x.txt").1 assetStale (by decide)⟩

/-- Claim C5: every successfully generated asset has its compressed bytes
and compressed validator both present or both absent, and they are present
exactly when the extension of the resolved file's path is in the
compressable allow-list (case-insensitively, the empty extension
included). -/
theorem c5_compressed_pair_invariant (fs : FS) (mime : String → String)
    (gz : List Nat → Nat → Option (List Nat)) (now : Nat) :
    ∀ (fuel : Nat) (a : AssetCache) (name0 : String) (asset : Asset) (a1 : AssetCache),
      GenGo fs mime gz now fuel a name0 = (Except.ok asset, a1) →
      asset.ContentCompressed.isSome = asset.EtagCompressed.isSome ∧
      ∃ p, fsStat fs p = some (FsNode.file asset.Content asset.ModTime false) ∧
        asset.ContentCompressed.isSome = stringsContainsCI Compressable (filepathExt p) ∧
        asset.EtagCompressed.isSome = stringsContainsCI Compressable (filepathExt p) := by
  intro fuel
  induction fuel with
  | zero =>
    intro a name0 asset a1 h
    simp [GenGo] at h
  | succ n ih =>
    intro a name0 asset a1 h
    simp only [GenGo] at h
    split at h
    · simp at h
    · exact ih _ _ _ _ h
    · next content mtime readErr heq =>
      split at h
      · simp at h
      · next hre =>
        split at h
        · next hcz =>
          split at h
          · simp at h
          · next comp hgz =>
            simp only [Prod.mk.injEq, Except.ok.injEq] at h
            obtain ⟨h1, h2⟩ := h
            subst h1
            rw [Bool.not_eq_true] at hre
            subst hre
            refine ⟨rfl, pathClean (a.Dir ++ name0), heq, ?_, ?_⟩
            · simp [hcz]
            · simp [hcz]
        · next hcz =>
          simp only [Prod.mk.injEq, Except.ok.injEq] at h
          obtain ⟨h1, h2⟩ := h
          subst h1
          rw [Bool.not_eq_true] at hre
          subst hre
          rw [Bool.not_eq_true] at hcz
          refine ⟨rfl, pathClean (a.Dir ++ name0), heq, ?_, ?_⟩
          · simp [hcz]
          · simp [hcz]

/-- The result of a concrete successful generation, used by the C5 witness. -/
def genOkW : Except GenErr Asset × AssetCache := GenGo fsGen mimeNil gzId 5 9 acEmpty "/x.txt"

/-- The asset produced by `genOkW`. -/
def assetW : Asset :=
  match genOkW.1 with
  | Except.ok v => v
  | Except.error _ => default

/-- Witness for C5 at a concrete successful generation of a `.txt` file. -/
theorem c5_compressed_pair_invariant_witness :
    GenGo fsGen mimeNil gzId 5 9 acEmpty "/x.txt" = (Except.ok assetW, genOkW.2) ∧
    (assetW.ContentCompressed.isSome = assetW.EtagCompressed.isSome ∧
     ∃ p, fsStat fsGen p = some (FsNode.file assetW.Content assetW.ModTime false) ∧
       assetW.ContentCompressed.isSome = stringsContainsCI Compressable (filepathExt p) ∧
       assetW.EtagCompressed.isSome = stringsContainsCI Compressable (filepathExt p)) :=
  ⟨by decide,
   c5_compressed_pair_invariant fsGen mimeNil gzId 5 9 acEmpty "/x.txt" assetW genOkW.2
     (by decide)⟩

/-- Claim C6: for an entry whose compressed variant's presence agrees with
its `Compressed` flag (the invariant every generated entry satisfies),
`Serve` writes the compressed body and sets the ETag header to the
compressed validator exactly when the variant is present and the request's
accept-encoding capability contains "gzip"; in every other case it writes
the raw body and sets the ETag header to the raw validator. -/
theorem c6_serve_negotiation (as : Asset) (c : Ctx)
    (hinv : as.ContentCompressed.isSome = as.Compressed) :
    ((as.ContentCompressed.isSome = true ∧ strContains c.acceptEncoding "gzip" = true) →
      (ServeGo as c).body = c.body ++ as.ContentCompressed.getD [] ∧
      ctxGetHeader (ServeGo as c) "etag" = as.EtagCompressed.getD "")
  ∧ (¬(as.ContentCompressed.isSome = true ∧ strContains c.acceptEncoding "gzip" = true) →
      (ServeGo as c).body = c.body ++ as.Content ∧
      ctxGetHeader (ServeGo as c) "etag" = as.Etag) := by
  constructor
  · rintro ⟨h1, h2⟩
    have hC : as.Compressed = true := hinv.symm.trans h1
    simp only [ServeGo]
    split <;> simp [ctxSetHeader, ctxGetHeader, ctxWrite, hC, h2]
  · intro h
    by_cases hC : as.Compressed = true
    · have hS : strContains c.acceptEncoding "gzip" = false := by
        rcases Bool.eq_false_or_eq_true (strContains c.acceptEncoding "gzip") with hs | hs
        · exact absurd ⟨hinv.trans hC, hs⟩ h
        · exact hs
      simp only [ServeGo]
      split <;> simp [ctxSetHeader, ctxGetHeader, ctxWrite, hC, hS]
    · have hC2 : as.Compressed = false := by
        revert hC
        cases as.Compressed <;> simp
      simp only [ServeGo]
      split <;> simp [ctxSetHeader, ctxGetHeader, ctxWrite, hC2]

/-- A compressed entry served to a gzip-capable request, for the C6 witness. -/
def assetSrv : Asset :=
  { ContentType := "text/plain", Content := [104], ContentCompressed := some [31, 104],
    Etag := "\"aa\"", EtagCompressed := some "\"bb\"", Compressed := true }

/-- A response context whose request advertises gzip support. -/
def ctxSrv : Ctx := { acceptEncoding := "gzip, br" }

/-- Witness for C6: a compressed entry and a gzip-capable request get the
compressed body and the compressed validator. -/
theorem c6_serve_negotiation_witness :
    assetSrv.ContentCompressed.isSome = assetSrv.Compressed ∧
    ((ServeGo assetSrv ctxSrv).body = ctxSrv.body ++ assetSrv.ContentCompressed.getD [] ∧
     ctxGetHeader (ServeGo assetSrv ctxSrv) "etag" = assetSrv.EtagCompressed.getD "") :=
  ⟨by decide, (c6_serve_negotiation assetSrv ctxSrv (by decide)).1 ⟨by decide, by decide⟩⟩

/-- Claim C7: for the file `index.html` with content "hello" and any MIME
collaborator mapping ".html" to "text/html" and any gzip collaborator that
succeeds at level 9, the generated entry carries content type "text/html",
the quoted lowercase hex SHA-256 digest of the raw bytes as its validator,
the level-9 gzip encoding as its compressed bytes, and the quoted hex
SHA-256 digest of those compressed bytes as its compressed validator. -/
theorem c7_hello_scenario (mime : String → String)
    (gz : List Nat → Nat → Option (List Nat)) (comp : List Nat)
    (h1 : mime ".html" = "text/html") (h2 : gz helloBytes 9 = some comp) :
    (GenGo fsC7 mime gz 42 1 acRoot "/index.html").1 =
      Except.ok
        { ContentType := "text/html", Loaded := 42, ModTime := 7,
          Content := helloBytes, ContentCompressed := some comp,
          Etag := "\"2cf24dba5fb0a30e26e83b2ac5b9e29e1b161e5c1fa7425e73043362938b9824\"",
          EtagCompressed := some ("\"" ++ hexOfBytes (sha256Bytes comp) ++ "\""),
          Compressed := true } := by
  have hpc : pathClean (acRoot.Dir ++ "/index.html") = "/index.html" := by decide
  have hstat : fsStat fsC7 "/index.html" = some (FsNode.file helloBytes 7 false) := by decide
  have hext : filepathExt "/index.html" = ".html" := by decide
  have hcc : stringsContainsCI Compressable ".html" = true := by decide
  have hq : quotedHexDigest helloBytes =
      "\"2cf24dba5fb0a30e26e83b2ac5b9e29e1b161e5c1fa7425e73043362938b9824\"" := by decide
  simp [GenGo, hpc, hstat, hext, hcc, h1, h2, hq, quotedHexDigest]
  decide

/-- A concrete MIME collaborator knowing ".html". -/
def mimeHtml : String → String := fun e => if e == ".html" then "text/html" else ""

/-- A concrete stand-in compressor prepending a tag. -/
def gzTag : List Nat → Nat → Option (List Nat) := fun c _ => some (31 :: 139 :: c)

/-- `gzTag`'s output on the bytes of "hello". -/
def compHello : List Nat := 31 :: 139 :: helloBytes

/-- Witness for C7 at concrete collaborators. -/
theorem c7_hello_scenario_witness :
    mimeHtml ".html" = "text/html" ∧ gzTag helloBytes 9 = some compHello ∧
    (GenGo fsC7 mimeHtml gzTag 42 1 acRoot "/index.html").1 =
      Except.ok
        { ContentType := "text/html", Loaded := 42, ModTime := 7,
          Content := helloBytes, ContentCompressed := some compHello,
          Etag := "\"2cf24dba5fb0a30e26e83b2ac5b9e29e1b161e5c1fa7425e73043362938b9824\"",
          EtagCompressed := some ("\"" ++ hexOfBytes (sha256Bytes compHello) ++ "\""),
          Compressed := true } :=
  ⟨by decide, by decide, c7_hello_scenario mimeHtml gzTag compHello (by decide) (by decide)⟩

/-- Claim C8: whenever `Gen` fails, the error is returned and the cache is
left exactly as it was — in particular no entry is inserted for any key by
the failed attempt. -/
theorem c8_gen_error_leaves_cache (fs : FS) (mime : String → String)
    (gz : List Nat → Nat → Option (List Nat)) (now : Nat) :
    ∀ (fuel : Nat) (a : AssetCache) (name0 : String) (e : GenErr) (a1 : AssetCache),
      GenGo fs mime gz now fuel a name0 = (Except.error e, a1) → a1 = a := by
  intro fuel
  induction fuel with
  | zero =>
    intro a name0 e a1 h
    simp only [GenGo] at h
    exact (Prod.mk.injEq _ _ _ _ ▸ h).2.symm
  | succ n ih =>
    intro a name0 e a1 h
    simp only [GenGo] at h
    split at h
    · exact (Prod.mk.injEq _ _ _ _ ▸ h).2.symm
    · exact ih _ _ _ _ h
    · split at h
      · exact (Prod.mk.injEq _ _ _ _ ▸ h).2.symm
      · split at h
        · split at h
          · exact (Prod.mk.injEq _ _ _ _ ▸ h).2.symm
          · simp at h
        · simp at h

/-- A cache with a prior entry, hit by a failing generation. -/
def acPrior : AssetCache := { Dir := "/r", Cache := [("/r/y", assetT0)], Expire := 10 }

/-- The cache state after a generation attempt for a missing path. -/
def cacheAfterFail : AssetCache := (GenGo fsGen mimeNil gzId 5 9 acPrior "/nope").2

/-- Witness for C8: a NotFound generation returns the error and leaves the
prior cache untouched. -/
theorem c8_gen_error_leaves_cache_witness :
    GenGo fsGen mimeNil gzId 5 9 acPrior "/nope" =
      (Except.error GenErr.notFound, cacheAfterFail) ∧
    cacheAfterFail = acPrior :=
  ⟨by decide,
   c8_gen_error_leaves_cache fsGen mimeNil gzId 5 9 acPrior "/nope" GenErr.notFound
     cacheAfterFail (by decide)⟩

end Mak
